import Mathlib

/-!
Verification of the curriculum-assembly and text-layout pipeline of the
Learning_path repository (`src/utils.py`), as a shallow embedding in Lean.

Python strings are modelled as Lean `String` (or `List Char` for the
character-level text wrapper), Python lists as `List`, Python dicts with
fixed key sets as structures, insertion-ordered dicts with dynamic keys as
association lists, and the process environment as `String → Option String`.
Floating-point values in the code only ever hold exact multiples of 0.5
(`count * 0.5`), so they are modelled exactly by twice their value, a `Nat`.
External collaborators (the video search provider, the generative-text
provider, the SMTP transport) are modelled by explicit outcome parameters,
following the collaborator contracts of the specification; a Python
exception escaping a function is modelled by `Except.error`.
-/

/-- A parsed video record: the dict built for each search result by
`search_youtube_videos` (utils.py:61-68). -/
structure Video where
  title : String
  url : String
  duration : String
  views : String
  channel : String
  description : String
deriving Repr, DecidableEq, Inhabited

/-- The deduplication loop of `create_learning_playlist` (utils.py:112-117):
`for video in all_videos: if video["url"] not in seen_urls and
len(unique_videos) < 15: unique_videos.append(video); seen_urls.add(...)`.
The Python `set` is modelled as the list of admitted URLs (only membership
is ever used). -/
def dedupLoop : List Video → List Video → List String → List Video
  | [], uniq, _ => uniq
  | v :: vs, uniq, seen =>
    if v.url ∉ seen ∧ uniq.length < 15 then
      dedupLoop vs (uniq ++ [v]) (seen ++ [v.url])
    else
      dedupLoop vs uniq seen

/-- The list `unique_videos` as computed by `create_learning_playlist` from the
concatenated search results (utils.py:112-117). -/
def uniqueVideosOf (all_videos : List Video) : List Video :=
  dedupLoop all_videos [] []

/-- Spec-side reference loop: first-occurrence deduplication by URL with no
cap.  Used to state that the cap of 15 is enforced on unique videos only
(a later duplicate of an admitted URL never consumes the cap). -/
def dedupAllLoop : List Video → List Video → List Video
  | [], uniq => uniq
  | v :: vs, uniq =>
    if uniq.any (fun w => w.url == v.url) then dedupAllLoop vs uniq
    else dedupAllLoop vs (uniq ++ [v])

/-- Spec-side reference: uncapped first-occurrence deduplication by URL. -/
def dedupAll (vs : List Video) : List Video :=
  dedupAllLoop vs []

/-- Phase 1 videos (utils.py:131):
`unique_videos[:5] if len(unique_videos) >= 5 else unique_videos`. -/
def phase1Videos (unique_videos : List Video) : List Video :=
  if 5 ≤ unique_videos.length then unique_videos.take 5 else unique_videos

/-- Phase 2 videos (utils.py:136): `unique_videos[5:10] if len >= 10 else
unique_videos[5:] if len > 5 else []`. -/
def phase2Videos (unique_videos : List Video) : List Video :=
  if 10 ≤ unique_videos.length then (unique_videos.drop 5).take 5
  else if 5 < unique_videos.length then unique_videos.drop 5
  else []

/-- Phase 3 videos (utils.py:141): `unique_videos[10:] if len > 10 else []`. -/
def phase3Videos (unique_videos : List Video) : List Video :=
  if 10 < unique_videos.length then unique_videos.drop 10 else []

/-- Concrete deduplicated list of 12 distinct videos, used as a witness
input for the phase-slicing theorem. -/
def demoTwelve : List Video :=
  (List.range 12).map fun i => ⟨"t" ++ toString i, "u" ++ toString i, "", "", "", ""⟩

/-- Contiguous-substring test on character lists: `needle` occurs somewhere
in `hay`.  Models the Python string operator `needle in hay`. -/
def listContainsSub (hay needle : List Char) : Bool :=
  (List.range (hay.length + 1)).any fun i => needle.isPrefixOf (hay.drop i)

/-- Python `needle in hay` on strings. -/
def strIn (needle hay : String) : Bool :=
  listContainsSub hay.data needle.data

/-- Python `str.lower()` (the strings in this program are ASCII). -/
def pyLower (s : String) : String :=
  ⟨s.data.map Char.toLower⟩

/-- Python `str.upper()`. -/
def pyUpper (s : String) : String :=
  ⟨s.data.map Char.toUpper⟩

/-- The daily-video-count inference of `generate_daily_schedule`
(utils.py:155-166).  Note that only the `"hour"` test lowercases the
commitment string; the digit/word tests run on the original string. -/
def inferDailyVideos (commitment : String) : Nat :=
  if strIn "hour" (pyLower commitment) then
    if strIn "1" commitment || strIn "one" commitment then 1
    else if strIn "2" commitment || strIn "two" commitment then 2
    else if strIn "3" commitment || strIn "three" commitment then 3
    else 2
  else 2

/-- The per-day video projection of `generate_daily_schedule`
(utils.py:177-181): only title, url and duration are kept. -/
structure SchedVideo where
  title : String
  url : String
  duration : String
deriving Repr, DecidableEq, Inhabited

/-- Projection of a `Video` to its scheduled form (utils.py:177-181). -/
def projVideo (v : Video) : SchedVideo :=
  ⟨v.title, v.url, v.duration⟩

/-- One day entry of the schedule dict (utils.py:184-188).
`estimated_time` is the float `len(day_videos) * 0.5`; floats that are
exact multiples of 0.5 are modelled by twice their value. -/
structure DayPlan where
  videos : List SchedVideo
  estimated_time_x2 : Nat
  focus : String
deriving Repr, DecidableEq, Inhabited

/-- Builds the day dict of utils.py:184-188 from the collected day videos. -/
def mkDayPlan (day_videos : List SchedVideo) : DayPlan :=
  ⟨day_videos, day_videos.length,
    "Complete " ++ toString day_videos.length ++ " video(s) from the playlist"⟩

/-- The inner loop of `generate_daily_schedule` (utils.py:175-182): run
`daily_videos` iterations, appending `videos[video_index]` and advancing
the index while `video_index < total_videos`.  Returns the collected day
videos and the final index. -/
def collectDay (videos : List Video) (total : Nat) : Nat → Nat → List SchedVideo × Nat
  | 0, idx => ([], idx)
  | m + 1, idx =>
    if idx < total then
      let rest := collectDay videos total m (idx + 1)
      (projVideo (videos.getD idx default) :: rest.1, rest.2)
    else
      collectDay videos total m idx

/-- The outer loop of `generate_daily_schedule` (utils.py:173-188): one
iteration per day from `day` for `r` remaining days, threading
`video_index`.  The insertion-ordered dict is modelled as an association
list with the literal keys `"day_1"`, `"day_2"`, …. -/
def scheduleDays (videos : List Video) (total daily : Nat) :
    Nat → Nat → Nat → List (String × DayPlan)
  | _, _, 0 => []
  | idx, day, r + 1 =>
    let res := collectDay videos total daily idx
    ("day_" ++ toString day, mkDayPlan res.1)
      :: scheduleDays videos total daily res.2 (day + 1) r

/-- Embedding of `generate_daily_schedule` (utils.py:151-190). -/
def generate_daily_schedule (videos : List Video) (commitment : String) :
    List (String × DayPlan) :=
  let total_videos := videos.length
  let daily_videos := inferDailyVideos commitment
  let days_needed := max 1 (total_videos / daily_videos)
  scheduleDays videos total_videos daily_videos 0 1 days_needed

/-- Concrete list of 7 distinct videos used as a witness input for the
scheduling theorem. -/
def demoSeven : List Video :=
  (List.range 7).map fun i => ⟨"s" ++ toString i, "v" ++ toString i, "", "", "", ""⟩

/-- Python `text.split(' ')` on a character list: split at every single
space, keeping empty parts (so consecutive spaces yield empty tokens and
the empty text yields one empty token), as `str.split(' ')` does. -/
def splitSpace : List Char → List (List Char)
  | [] => [[]]
  | c :: cs =>
    if c = ' ' then [] :: splitSpace cs
    else
      match splitSpace cs with
      | [] => [[c]]
      | w :: ws => (c :: w) :: ws

/-- Python `' '.join(words)` on character lists. -/
def joinWords (ws : List (List Char)) : List Char :=
  List.intercalate [' '] ws

/-- The loop of `_split_token_to_fit` (utils.py:361-375): accumulate
characters into `current_chunk` while `measure(current_chunk + char) <
available_width`, otherwise close the chunk (possibly empty) and restart
from the character; the final non-empty chunk is appended
(`if current_chunk: chunks.append(current_chunk)`).  The PDF width
oracle `pdf.get_string_width` is the abstract `measure` parameter. -/
def splitFitLoop (measure : List Char → Nat) (available : Nat) :
    List Char → List (List Char) → List Char → List (List Char)
  | [], chunks, cur => if cur.isEmpty then chunks else chunks ++ [cur]
  | c :: cs, chunks, cur =>
    if measure (cur ++ [c]) < available then
      splitFitLoop measure available cs chunks (cur ++ [c])
    else
      splitFitLoop measure available cs (chunks ++ [cur]) [c]

/-- Embedding of `_split_token_to_fit(token, font_size, available_width)`
(utils.py:361-375). -/
def splitTokenToFit (measure : List Char → Nat) (available : Nat)
    (token : List Char) : List (List Char) :=
  splitFitLoop measure available token [] []

/-- The word loop of `_render_wrapped_text` (utils.py:377-406), collecting
the emitted `multi_cell` lines in order: a word wider than the available
width flushes the accumulated line and is split into chunks, each emitted
as its own line; otherwise the word joins the current line if the joined
candidate measures strictly below the available width, and else the
current line (possibly empty) is flushed and the word starts a new line. -/
def renderLoop (measure : List Char → Nat) (available : Nat) :
    List (List Char) → List (List Char) → List (List Char) → List (List Char)
  | [], lines, cur => if cur.isEmpty then lines else lines ++ [joinWords cur]
  | w :: ws, lines, cur =>
    if available < measure w then
      renderLoop measure available ws
        ((if cur.isEmpty then lines else lines ++ [joinWords cur])
          ++ splitTokenToFit measure available w) []
    else
      if measure (joinWords (cur ++ [w])) < available then
        renderLoop measure available ws lines (cur ++ [w])
      else
        renderLoop measure available ws (lines ++ [joinWords cur]) [w]

/-- Embedding of `_render_wrapped_text` (utils.py:377-406): the sequence of
lines emitted for one logical line of the document body. -/
def renderWrappedLines (measure : List Char → Nat) (available : Nat)
    (text : List Char) : List (List Char) :=
  renderLoop measure available (splitSpace text) [] []

/-- Concatenation of a list of lists, in order. -/
def concatAll {α : Type} : List (List α) → List α
  | [] => []
  | l :: ls => l ++ concatAll ls

/-- Spec-side expected token sequence for the wrapper: each over-width
token is replaced by its character-level chunks, other tokens are kept. -/
def expandTokens (measure : List Char → Nat) (available : Nat) :
    List (List Char) → List (List Char)
  | [] => []
  | w :: ws =>
    (if available < measure w then splitTokenToFit measure available w else [w])
      ++ expandTokens measure available ws

/-- Python truthiness of an `os.getenv` result: `None` and the empty
string are falsy. -/
def pyTruthy (o : Option String) : Bool :=
  match o with
  | none => false
  | some s => !s.data.isEmpty

/-- The required SMTP settings, in the order of utils.py:439. -/
def requiredSmtpKeys : List String :=
  ["EMAIL_FROM", "SMTP_HOST", "SMTP_USERNAME", "SMTP_PASSWORD"]

/-- Embedding of `get_missing_smtp_env_keys` (utils.py:437-441):
`[key for key in required_keys if not os.getenv(key)]`.  The process
environment is the function argument. -/
def get_missing_smtp_env_keys (env : String → Option String) : List String :=
  requiredSmtpKeys.filter fun k => !pyTruthy (env k)

/-- Python `os.getenv(key, default)`. -/
def pyGetenvD (env : String → Option String) (key dflt : String) : String :=
  (env key).getD dflt

/-- Whitespace as stripped by Python `int(str)`. -/
def isPySpace (c : Char) : Bool :=
  c == ' ' || c == '\t' || c == '\n' || c == '\r'

/-- Value of a digit string. -/
def natOfDigits (ds : List Char) : Nat :=
  ds.foldl (fun a c => a * 10 + (c.toNat - '0'.toNat)) 0

/-- Python `int(str)`: strip whitespace, optional sign, decimal digits;
anything else raises ValueError (modelled as `none`).  The underscore
digit grouping of Python int literals is not modelled; no setting in this program uses it. -/
def pyInt (s : String) : Option Int :=
  let t := ((s.data.dropWhile isPySpace).reverse.dropWhile isPySpace).reverse
  match t with
  | [] => none
  | '+' :: ds =>
    if ds.all Char.isDigit && !ds.isEmpty then some (natOfDigits ds) else none
  | '-' :: ds =>
    if ds.all Char.isDigit && !ds.isEmpty then some (-(natOfDigits ds : Int)) else none
  | ds =>
    if ds.all Char.isDigit then some (natOfDigits ds) else none

/-- One entry of a `descriptionSnippet` list in a raw search result. -/
structure SnippetEntry where
  text : Option String
deriving Repr, DecidableEq

/-- A raw search-result dict as consumed by `search_youtube_videos`
(utils.py:60-68).  The nested lookups `video.get("viewCount", {}).get("text", "")`
and `video.get("channel", {}).get("name", "")` are modelled flattened. -/
structure RawVideo where
  title : Option String
  link : Option String
  duration : Option String
  viewCount_text : Option String
  channel_name : Option String
  descriptionSnippet : Option (List SnippetEntry)
deriving Repr, DecidableEq

/-- The per-result parsing of `search_youtube_videos` (utils.py:61-68),
including the 200-character truncation of the description with an
ellipsis marker when a snippet is present (truthy). -/
def parse_video (video : RawVideo) : Video :=
  { title := video.title.getD ""
    url := video.link.getD ""
    duration := video.duration.getD ""
    views := video.viewCount_text.getD ""
    channel := video.channel_name.getD ""
    description :=
      match video.descriptionSnippet with
      | some (s :: _) => (⟨(s.text.getD "").data.take 200⟩ : String) ++ "..."
      | _ => "" }

/-- Embedding of `search_youtube_videos` (utils.py:52-74).  The collaborator call
`VideosSearch(query, limit).result()` is the outcome argument:
`Except.error` is any exception from the provider (caught at utils.py:72
and turned into `[]`), `Except.ok none` is a falsy response or one
without a `"result"` key, and `Except.ok (some raws)` is the result list. -/
def search_youtube_videos (searchOutcome : Except String (Option (List RawVideo))) :
    List Video :=
  match searchOutcome with
  | Except.error _ => []
  | Except.ok none => []
  | Except.ok (some raws) => raws.map parse_video

/-- Embedding of `send_email_with_attachment` (utils.py:444-502).  The SMTP session of
the try-block is the `transport` outcome argument.  The returned value is
`Except.error` when the Python function raises (which happens exactly when
one of the `int(...)` conversions at utils.py:455-460 fails, before the
missing-key check and outside the try/except), `Except.ok true` on a
successful send, and `Except.ok false` when settings are missing or the
transport fails. -/
def send_email_with_attachment (env : String → Option String)
    (transport : Except String Unit) : Except String Bool :=
  match pyInt (pyGetenvD env "SMTP_PORT" "587") with
  | none => Except.error "ValueError: invalid SMTP_PORT"
  | some _ =>
    match pyInt (pyGetenvD env "SMTP_TIMEOUT" "30") with
    | none => Except.error "ValueError: invalid SMTP_TIMEOUT"
    | some _ =>
      match pyInt (pyGetenvD env "SMTP_DEBUG" "0") with
      | none => Except.error "ValueError: invalid SMTP_DEBUG"
      | some _ =>
        if (get_missing_smtp_env_keys env).isEmpty then
          match transport with
          | Except.ok _ => Except.ok true
          | Except.error _ => Except.ok false
        else
          Except.ok false

/-- Environment with all four required SMTP settings present but a
non-numeric SMTP_PORT. -/
def envBadPort : String → Option String := fun k =>
  if k = "EMAIL_FROM" then some "from@example.com"
  else if k = "SMTP_HOST" then some "smtp.example.com"
  else if k = "SMTP_USERNAME" then some "user"
  else if k = "SMTP_PASSWORD" then some "pw"
  else if k = "SMTP_PORT" then some "abc"
  else none

/-- Environment where EMAIL_FROM is absent, SMTP_HOST is present but
empty, and SMTP_PORT is present but non-numeric. -/
def envEmptyHost : String → Option String := fun k =>
  if k = "SMTP_HOST" then some ""
  else if k = "SMTP_USERNAME" then some "user"
  else if k = "SMTP_PASSWORD" then some "pw"
  else if k = "SMTP_PORT" then some "abc"
  else none

/-- Environment where only EMAIL_FROM is missing and every numeric
setting is left at its parseable default. -/
def envMissingFrom : String → Option String := fun k =>
  if k = "SMTP_HOST" then some "smtp.example.com"
  else if k = "SMTP_USERNAME" then some "user"
  else if k = "SMTP_PASSWORD" then some "pw"
  else none

/-- One learning phase of the playlist structure (utils.py:128-142). -/
structure Phase where
  name : String
  description : String
  videos : List Video
deriving Repr, DecidableEq

/-- The playlist dict built by `create_learning_playlist`
(utils.py:120-146).  `estimated_hours` is the float
`len(unique_videos) * 0.5`, modelled by twice its value. -/
structure Playlist where
  topic : String
  difficulty : String
  background : String
  commitment : String
  total_videos : Nat
  estimated_hours_x2 : Nat
  phase_1 : Phase
  phase_2 : Phase
  phase_3 : Phase
  daily_schedule : List (String × DayPlan)
  search_queries : List String
deriving Repr, DecidableEq

/-- Difficulty classification and canned query templates of
`create_learning_playlist` (utils.py:80-103). -/
def difficultyAndQueries (topic background : String) : String × List String :=
  if strIn "beginner" (pyLower background) || strIn "absolute" (pyLower background) then
    ("beginner",
      [topic ++ " tutorial for beginners", topic ++ " basics explained",
        topic ++ " introduction course", topic ++ " fundamentals"])
  else if strIn "intermediate" (pyLower background) then
    ("intermediate",
      [topic ++ " intermediate tutorial", topic ++ " advanced concepts",
        topic ++ " practical examples", topic ++ " real world applications"])
  else
    ("advanced",
      [topic ++ " advanced tutorial", topic ++ " expert level",
        topic ++ " advanced concepts", topic ++ " professional development"])

/-- Embedding of `create_learning_playlist` (utils.py:77-148).  The
external search collaborator is abstracted by the per-query result lists
(utils.py:107-109 extends `all_videos` with the results of each query in
order). -/
def create_learning_playlist (topic background commitment : String)
    (searchResults : List (List Video)) : Playlist :=
  let dq := difficultyAndQueries topic background
  let all_videos := concatAll searchResults
  let unique_videos := uniqueVideosOf all_videos
  { topic := topic
    difficulty := dq.1
    background := background
    commitment := commitment
    total_videos := unique_videos.length
    estimated_hours_x2 := unique_videos.length
    phase_1 := ⟨"Foundation", "Build basic understanding and concepts",
      phase1Videos unique_videos⟩
    phase_2 := ⟨"Core Learning", "Deep dive into main concepts and practical examples",
      phase2Videos unique_videos⟩
    phase_3 := ⟨"Advanced Application", "Advanced topics and real-world applications",
      phase3Videos unique_videos⟩
    daily_schedule := generate_daily_schedule unique_videos commitment
    search_queries := dq.2 }

/-- Python float formatting `:.1f` for a float that is an exact multiple
of 0.5, given as twice its value. -/
def fmt1fHalf (x2 : Nat) : String :=
  toString (x2 / 2) ++ "." ++ (if x2 % 2 = 1 then "5" else "0")

/-- Python `key.replace('_', ' ')` for the single-character pattern used
at utils.py:321. -/
def replaceUnderscore (s : String) : String :=
  ⟨s.data.map fun c => if c = '_' then ' ' else c⟩

/-- Worker for Python `str.title()`: the flag records whether the previous
character was alphabetic. -/
def titleAux : Bool → List Char → List Char
  | _, [] => []
  | prevAlpha, c :: cs =>
    if c.isAlpha then
      (if prevAlpha then c.toLower else c.toUpper) :: titleAux true cs
    else
      c :: titleAux false cs

/-- Python `str.title()` (ASCII): the first letter of every letter-run is
uppercased, the rest lowercased. -/
def pyTitle (s : String) : String :=
  ⟨titleAux false s.data⟩

/-- The static fallback notes template of `generate_learning_notes`
(utils.py:228-290), with the f-string interpolations made explicit. -/
def fallbackNotes (topic background commitment : String) : String :=
  "\nLEARNING PATH: " ++ pyUpper topic ++
  "\n\nPREREQUISITES:\n- Basic computer literacy\n- Willingness to learn and practice" ++
  "\n\nLEARNING OBJECTIVES:\n- Understand fundamental concepts\n- Build practical skills" ++
  "\n- Complete hands-on projects\n- Gain confidence in the subject" ++
  "\n\nCURRICULUM:\nWeek 1-2: Fundamentals\n- Introduction to " ++ topic ++
  "\n- Basic concepts and terminology\n- Setting up development environment" ++
  "\n\nWeek 3-4: Core Concepts\n- Key principles and methods\n- Basic syntax and structure" ++
  "\n- Simple examples and exercises" ++
  "\n\nWeek 5-6: Practical Application\n- Building small projects" ++
  "\n- Problem-solving exercises\n- Best practices and tips" ++
  "\n\nWeek 7-8: Advanced Topics\n- Complex concepts\n- Real-world applications" ++
  "\n- Next steps and resources" ++
  "\n\nRECOMMENDED RESOURCES:\n- Official documentation\n- Online tutorials and courses" ++
  "\n- Practice platforms\n- Community forums" ++
  "\n\nPRACTICE EXERCISES:\n- Daily coding challenges\n- Mini-projects\n- Code reviews" ++
  "\n- Pair programming" ++
  "\n\nTIMELINE:\n- Total: 8 weeks\n- 5-10 hours per week\n- Adjust based on your schedule" ++
  "\n\nTIPS FOR SUCCESS:\n- Practice regularly\n- Build projects\n- Join communities" ++
  "\n- Stay consistent\n- Don\x27t rush - quality over speed" ++
  "\n\nYour background: " ++ background ++
  "\nYour commitment: " ++ commitment ++
  "\n\nRemember: Learning is a journey, not a destination. Stay patient and persistent!\n"

/-- The per-video bullet lines of the daily-schedule block
(utils.py:325-327).  The bullet is the (mojibake) character sequence
stored in the source file. -/
def videoLines : List SchedVideo → String
  | [] => ""
  | v :: vs =>
    "\n  â€¢ " ++ v.title ++ " (" ++ v.duration ++ ")" ++
    "\n    Link: " ++ v.url ++ videoLines vs

/-- The per-day blocks of the daily-schedule section (utils.py:320-328). -/
def dayBlocks : List (String × DayPlan) → String
  | [] => ""
  | (key, d) :: rest =>
    "\n" ++ pyTitle (replaceUnderscore key) ++ ":" ++
    "\n- Focus: " ++ d.focus ++
    "\n- Estimated Time: " ++ fmt1fHalf d.estimated_time_x2 ++ " hours" ++
    "\n- Videos:" ++ videoLines d.videos ++ "\n" ++
    dayBlocks rest

/-- The fixed-format curriculum section appended to the notes when
playlist data is available (utils.py:294-340): playlist header, phase
summaries, per-day breakdown, tips, and the search queries used.  The
emoji markers are the (mojibake) character sequences stored in the source
file. -/
def playlistSection (p : Playlist) : String :=
  "\n\nðŸŽ¥ DAILY YOUTUBE LEARNING PLAYLIST\n\nTopic: " ++ p.topic ++
  "\nDifficulty Level: " ++ pyTitle p.difficulty ++
  "\nTotal Videos: " ++ toString p.total_videos ++
  "\nEstimated Total Time: " ++ fmt1fHalf p.estimated_hours_x2 ++ " hours" ++
  "\n\nðŸ“š LEARNING PHASES:" ++
  "\n\nPhase 1: " ++ p.phase_1.name ++ "\n" ++ p.phase_1.description ++
  "\nVideos: " ++ toString p.phase_1.videos.length ++ " videos" ++
  "\n\nPhase 2: " ++ p.phase_2.name ++ "\n" ++ p.phase_2.description ++
  "\nVideos: " ++ toString p.phase_2.videos.length ++ " videos" ++
  "\n\nPhase 3: " ++ p.phase_3.name ++ "\n" ++ p.phase_3.description ++
  "\nVideos: " ++ toString p.phase_3.videos.length ++ " videos" ++
  "\n\nðŸ“… DAILY SCHEDULE:\n" ++
  dayBlocks p.daily_schedule ++
  "\nðŸŽ¯ DAILY LEARNING TIPS:\n- Watch videos at your own pace" ++
  "\n- Take notes while watching\n- Practice concepts after each video" ++
  "\n- Review previous day\x27s content before starting new videos" ++
  "\n- Stay consistent with your daily schedule" ++
  "\n\nðŸ”— PLAYLIST SEARCH QUERIES USED:\n" ++
  String.intercalate ", " p.search_queries ++ "\n"

/-- Embedding of `generate_learning_notes` (utils.py:202-342).  The
generative-text collaborator is abstracted by `aiText`: `some t` models a
configured client whose `generate_content` succeeds with text `t`
(utils.py:222-223 returns it immediately); `none` models a missing
GEMINI_API_KEY or a raised generation error, both of which fall through
to the static template, to which the curriculum section is appended when
`playlist_data` is truthy (utils.py:293). -/
def generate_learning_notes (topic background commitment : String)
    (playlist_data : Option Playlist) (aiText : Option String) : String :=
  match aiText with
  | some t => t
  | none =>
    match playlist_data with
    | some p => fallbackNotes topic background commitment ++ playlistSection p
    | none => fallbackNotes topic background commitment

/-- Concrete playlist built through the real pipeline from one search
result, used to exhibit the behaviour of the notes composer. -/
def demoPlaylist : Playlist :=
  create_learning_playlist "P" "beginner" "1 hour" [[⟨"T", "U", "D", "", "", ""⟩]]

-- ===================== theorems =====================

theorem dedupLoop_of_full (vs : List Video) (uniq : List Video) (seen : List String)
    (h : 15 ≤ uniq.length) : dedupLoop vs uniq seen = uniq := by
  induction vs generalizing seen with
  | nil => rfl
  | cons v vs ih =>
    unfold dedupLoop
    rw [if_neg]
    · exact ih seen
    · rintro ⟨-, hlt⟩
      omega

theorem dedupAllLoop_append (vs : List Video) (uniq : List Video) :
    ∃ t, dedupAllLoop vs uniq = uniq ++ t := by
  induction vs generalizing uniq with
  | nil => exact ⟨[], by simp [dedupAllLoop]⟩
  | cons v vs ih =>
    unfold dedupAllLoop
    by_cases h : uniq.any (fun w => w.url == v.url)
    · rw [if_pos h]; exact ih uniq
    · rw [if_neg h]
      obtain ⟨t, ht⟩ := ih (uniq ++ [v])
      exact ⟨v :: t, by simpa using ht⟩

theorem dedupAllLoop_any_iff (uniq : List Video) (u : String) :
    (uniq.any fun w => w.url == u) = true ↔ u ∈ uniq.map (fun w => w.url) := by
  simp only [List.any_eq_true, List.mem_map, beq_iff_eq]

theorem dedupLoop_eq_take (vs : List Video) (uniq : List Video)
    (h : uniq.length ≤ 15) :
    dedupLoop vs uniq (uniq.map fun w => w.url) = (dedupAllLoop vs uniq).take 15 := by
  induction vs generalizing uniq with
  | nil =>
    show uniq = uniq.take 15
    exact (List.take_of_length_le h).symm
  | cons v vs ih =>
    unfold dedupLoop dedupAllLoop
    by_cases hmem : v.url ∈ uniq.map fun w => w.url
    · rw [if_neg (by rintro ⟨hni, -⟩; exact hni hmem),
        if_pos ((dedupAllLoop_any_iff uniq v.url).mpr hmem)]
      exact ih uniq h
    · have hany : ¬ ((uniq.any fun w => w.url == v.url) = true) := by
        intro hc
        exact hmem ((dedupAllLoop_any_iff uniq v.url).mp hc)
      by_cases hlen : uniq.length < 15
      · rw [if_pos ⟨hmem, hlen⟩, if_neg hany]
        have hmap : (uniq ++ [v]).map (fun w => w.url)
            = uniq.map (fun w => w.url) ++ [v.url] := by simp
        rw [← hmap]
        exact ih (uniq ++ [v]) (by simp; omega)
      · rw [if_neg (by rintro ⟨-, hc⟩; exact hlen hc), if_neg hany]
        rw [dedupLoop_of_full vs uniq _ (by omega)]
        obtain ⟨t, ht⟩ := dedupAllLoop_append vs (uniq ++ [v])
        rw [ht, List.append_assoc]
        exact (List.take_left' (by omega)).symm

theorem dedupLoop_sublist (vs : List Video) (uniq : List Video) (seen : List String) :
    ∃ t, dedupLoop vs uniq seen = uniq ++ t ∧ t.Sublist vs := by
  induction vs generalizing uniq seen with
  | nil => exact ⟨[], by simp [dedupLoop]⟩
  | cons v vs ih =>
    unfold dedupLoop
    by_cases hc : v.url ∉ seen ∧ uniq.length < 15
    · rw [if_pos hc]
      obtain ⟨t, ht, hs⟩ := ih (uniq ++ [v]) (seen ++ [v.url])
      exact ⟨v :: t, by simpa using ht, List.Sublist.cons₂ v hs⟩
    · rw [if_neg hc]
      obtain ⟨t, ht, hs⟩ := ih uniq seen
      exact ⟨t, ht, hs.cons v⟩

theorem dedupLoop_nodup (vs : List Video) (uniq : List Video)
    (h : (uniq.map fun w => w.url).Nodup) :
    ((dedupLoop vs uniq (uniq.map fun w => w.url)).map fun w => w.url).Nodup := by
  induction vs generalizing uniq with
  | nil => exact h
  | cons v vs ih =>
    unfold dedupLoop
    by_cases hc : (v.url ∉ uniq.map fun w => w.url) ∧ uniq.length < 15
    · rw [if_pos hc]
      have hmap : (uniq ++ [v]).map (fun w => w.url)
          = uniq.map (fun w => w.url) ++ [v.url] := by simp
      have hn : ((uniq ++ [v]).map fun w => w.url).Nodup := by
        rw [hmap]
        refine List.Nodup.append h (List.nodup_singleton _) ?_
        intro a ha hb
        simp only [List.mem_singleton] at hb
        exact hc.1 (hb ▸ ha)
      rw [← hmap]
      exact ih (uniq ++ [v]) hn
    · rw [if_neg hc]
      exact ih uniq h

theorem dedupLoop_first_occurrence (vs : List Video) (uniq : List Video)
    (seen : List String) (v : Video) (hv : v ∈ dedupLoop vs uniq seen) :
    v ∈ uniq ∨ (vs.find? (fun w => w.url == v.url) = some v ∧ v.url ∉ seen) := by
  induction vs generalizing uniq seen with
  | nil =>
    left
    simpa [dedupLoop] using hv
  | cons w vs ih =>
    unfold dedupLoop at hv
    by_cases hfull : uniq.length < 15
    · by_cases hseen : w.url ∈ seen
      · rw [if_neg (by rintro ⟨hni, -⟩; exact hni hseen)] at hv
        rcases ih uniq seen hv with h | ⟨hfind, hns⟩
        · exact Or.inl h
        · right
          refine ⟨?_, hns⟩
          rw [List.find?_cons_of_neg, hfind]
          simp only [beq_iff_eq]
          intro he
          exact hns (he ▸ hseen)
      · rw [if_pos ⟨hseen, hfull⟩] at hv
        rcases ih (uniq ++ [w]) (seen ++ [w.url]) hv with h | ⟨hfind, hns⟩
        · rcases List.mem_append.mp h with h | h
          · exact Or.inl h
          · right
            have hvw : v = w := by simpa using h
            subst hvw
            constructor
            · rw [List.find?_cons_of_pos]
              simp
            · exact hseen
        · right
          have hne : v.url ≠ w.url := by
            intro he
            exact hns (by simp [he])
          refine ⟨?_, fun hc => hns (List.mem_append_left _ hc)⟩
          rw [List.find?_cons_of_neg, hfind]
          simp only [beq_iff_eq]
          exact fun he => hne he.symm
    · rw [if_neg (by rintro ⟨-, hl⟩; exact hfull hl)] at hv
      rw [dedupLoop_of_full vs uniq seen (by omega)] at hv
      exact Or.inl hv

/-- C1.  The deduplication step of `create_learning_playlist`
(utils.py:112-117): the retained list is exactly the first 15 entries of the
uncapped first-occurrence deduplication (so later duplicates of admitted
URLs never consume the cap), it is an order-preserving subsequence of the
raw result list, it has at most 15 entries with pairwise distinct URLs, and
every retained video is the first occurrence of its URL in the raw list. -/
theorem dedup_keeps_first_occurrences_capped (all_videos : List Video) :
    uniqueVideosOf all_videos = (dedupAll all_videos).take 15 ∧
    (uniqueVideosOf all_videos).Sublist all_videos ∧
    (uniqueVideosOf all_videos).length ≤ 15 ∧
    ((uniqueVideosOf all_videos).map fun w => w.url).Nodup ∧
    (∀ v, v ∈ uniqueVideosOf all_videos →
      all_videos.find? (fun w => w.url == v.url) = some v) := by
  refine ⟨?_, ?_, ?_, ?_, ?_⟩
  · exact dedupLoop_eq_take all_videos [] (by simp)
  · obtain ⟨t, ht, hs⟩ := dedupLoop_sublist all_videos [] []
    rw [uniqueVideosOf, ht]
    simpa using hs
  · have h := dedupLoop_eq_take all_videos [] (by simp)
    rw [uniqueVideosOf, show ([] : List String) = [].map (fun w : Video => w.url) by simp, h]
    exact List.length_take_le 15 _
  · exact dedupLoop_nodup all_videos [] (by simp)
  · intro v hv
    rcases dedupLoop_first_occurrence all_videos [] [] v hv with h | ⟨hfind, -⟩
    · simp at h
    · exact hfind

/-- Witness for C1 at a concrete input containing an interleaved duplicate
URL: the duplicate is dropped and the first occurrence is found. -/
theorem dedup_keeps_first_occurrences_capped_witness :
    (⟨"t1", "u1", "", "", "", ""⟩ : Video) ∈
      uniqueVideosOf [⟨"t1", "u1", "", "", "", ""⟩, ⟨"t2", "u2", "", "", "", ""⟩,
        ⟨"t3", "u1", "", "", "", ""⟩] ∧
    [⟨"t1", "u1", "", "", "", ""⟩, ⟨"t2", "u2", "", "", "", ""⟩,
        (⟨"t3", "u1", "", "", "", ""⟩ : Video)].find?
      (fun w => w.url == "u1") = some ⟨"t1", "u1", "", "", "", ""⟩ :=
  ⟨by decide,
    (dedup_keeps_first_occurrences_capped
      [⟨"t1", "u1", "", "", "", ""⟩, ⟨"t2", "u2", "", "", "", ""⟩,
        ⟨"t3", "u1", "", "", "", ""⟩]).2.2.2.2
      ⟨"t1", "u1", "", "", "", ""⟩ (by decide)⟩

/-- C2.  The three phases of `create_learning_playlist` (utils.py:127-143)
are exactly the slices `videos[0:5)`, `videos[5:10)` and `videos[10:15)` of
the deduplicated list (of length at most 15), and their concatenation in
order reproduces the deduplicated list exactly. -/
theorem phases_are_contiguous_slices (uv : List Video) (h : uv.length ≤ 15) :
    phase1Videos uv = uv.take 5 ∧
    phase2Videos uv = (uv.drop 5).take 5 ∧
    phase3Videos uv = (uv.drop 10).take 5 ∧
    phase1Videos uv ++ phase2Videos uv ++ phase3Videos uv = uv := by
  have h1 : phase1Videos uv = uv.take 5 := by
    unfold phase1Videos
    by_cases h5 : 5 ≤ uv.length
    · rw [if_pos h5]
    · rw [if_neg h5]
      exact (List.take_of_length_le (by omega)).symm
  have h2 : phase2Videos uv = (uv.drop 5).take 5 := by
    unfold phase2Videos
    by_cases h10 : 10 ≤ uv.length
    · rw [if_pos h10]
    · rw [if_neg h10]
      by_cases h5 : 5 < uv.length
      · rw [if_pos h5]
        refine (List.take_of_length_le ?_).symm
        rw [List.length_drop]
        omega
      · rw [if_neg h5]
        have : uv.drop 5 = [] := List.drop_eq_nil_of_le (by omega)
        rw [this]
        rfl
  have h3 : phase3Videos uv = (uv.drop 10).take 5 := by
    unfold phase3Videos
    by_cases h10 : 10 < uv.length
    · rw [if_pos h10]
      refine (List.take_of_length_le ?_).symm
      rw [List.length_drop]
      omega
    · rw [if_neg h10]
      have : uv.drop 10 = [] := List.drop_eq_nil_of_le (by omega)
      rw [this]
      rfl
  refine ⟨h1, h2, h3, ?_⟩
  rw [h1, h2, h3]
  have hd : (uv.drop 10).take 5 = uv.drop 10 := by
    refine List.take_of_length_le ?_
    rw [List.length_drop]
    omega
  rw [hd, show uv.drop 10 = (uv.drop 5).drop 5 by rw [List.drop_drop]]
  rw [List.append_assoc, List.take_append_drop, List.take_append_drop]

/-- Witness for C2 on a concrete deduplicated list of 12 videos. -/
theorem phases_are_contiguous_slices_witness :
    demoTwelve.length ≤ 15 ∧
    (phase1Videos demoTwelve = demoTwelve.take 5 ∧
      phase2Videos demoTwelve = (demoTwelve.drop 5).take 5 ∧
      phase3Videos demoTwelve = (demoTwelve.drop 10).take 5 ∧
      phase1Videos demoTwelve ++ phase2Videos demoTwelve ++ phase3Videos demoTwelve
        = demoTwelve) :=
  ⟨by decide, phases_are_contiguous_slices demoTwelve (by decide)⟩

theorem collectDay_eq (videos : List Video) (m idx : Nat) :
    collectDay videos videos.length m idx
      = (((videos.drop idx).take m).map projVideo,
          idx + ((videos.drop idx).take m).length) := by
  induction m generalizing idx with
  | zero => simp [collectDay]
  | succ m ih =>
    unfold collectDay
    by_cases hidx : idx < videos.length
    · rw [if_pos hidx]
      have hd : videos.drop idx = videos[idx] :: videos.drop (idx + 1) :=
        List.drop_eq_getElem_cons hidx
      have hgetD : videos.getD idx default = videos[idx] :=
        List.getD_eq_getElem videos default hidx
      refine Prod.ext ?_ ?_
      · show projVideo (videos.getD idx default)
            :: (collectDay videos videos.length m (idx + 1)).1
            = ((videos.drop idx).take (m + 1)).map projVideo
        rw [ih (idx + 1), hd, List.take_succ_cons, List.map_cons, hgetD]
      · show (collectDay videos videos.length m (idx + 1)).2
            = idx + ((videos.drop idx).take (m + 1)).length
        rw [ih (idx + 1), hd, List.take_succ_cons, List.length_cons]
        show idx + 1 + ((videos.drop (idx + 1)).take m).length = _
        omega
    · rw [if_neg hidx]
      have hnil : videos.drop idx = [] := List.drop_eq_nil_of_le (by omega)
      rw [ih idx, hnil]
      simp

theorem scheduleDays_length (videos : List Video) (total daily : Nat) (r : Nat) :
    ∀ idx day, (scheduleDays videos total daily idx day r).length = r := by
  induction r with
  | zero => intro idx day; rfl
  | succ r ih =>
    intro idx day
    unfold scheduleDays
    simp [ih]

theorem scheduleDays_get? (videos : List Video) (daily : Nat) (r : Nat) :
    ∀ idx day k, k < r →
      (scheduleDays videos videos.length daily idx day r).get? k
        = some ("day_" ++ toString (day + k),
            mkDayPlan (((videos.drop (idx + k * daily)).take daily).map projVideo)) := by
  induction r with
  | zero => intro idx day k hk; omega
  | succ r ih =>
    intro idx day k hk
    unfold scheduleDays
    have hres : (collectDay videos videos.length daily idx).2
        = idx + min daily (videos.length - idx) := by
      rw [collectDay_eq]
      simp [List.length_take, List.length_drop]
    match k with
    | 0 =>
      simp only [List.get?_cons_zero, collectDay_eq]
      simp
    | k + 1 =>
      simp only [List.get?_cons_succ]
      rw [ih _ (day + 1) k (by omega)]
      have hkey : videos.drop ((collectDay videos videos.length daily idx).2 + k * daily)
          = videos.drop (idx + (k + 1) * daily) := by
        by_cases hfit : idx + daily ≤ videos.length
        · have hc2 : (collectDay videos videos.length daily idx).2 = idx + daily := by
            rw [hres]; omega
          have hsm : (k + 1) * daily = k * daily + daily := Nat.succ_mul k daily
          rw [hc2]
          congr 1
          omega
        · have h1 : videos.length ≤ (collectDay videos videos.length daily idx).2 := by
            rw [hres]; omega
          have h2 : videos.length
              ≤ (collectDay videos videos.length daily idx).2 + k * daily :=
            le_trans h1 (Nat.le_add_right _ _)
          have hsm : (k + 1) * daily = k * daily + daily := Nat.succ_mul k daily
          have h3 : videos.length ≤ idx + (k + 1) * daily := by omega
          rw [List.drop_eq_nil_of_le h2, List.drop_eq_nil_of_le h3]
      rw [hkey, Nat.add_assoc, Nat.add_comm 1 k]

theorem scheduleDays_sum (videos : List Video) (daily : Nat) (r : Nat) :
    ∀ idx day, idx ≤ videos.length →
      ((scheduleDays videos videos.length daily idx day r).map
          (fun e => e.2.videos.length)).sum
        = min (r * daily) (videos.length - idx) := by
  induction r with
  | zero => intro idx day h; simp [scheduleDays]
  | succ r ih =>
    intro idx day h
    unfold scheduleDays
    have hres : (collectDay videos videos.length daily idx).2
        = idx + min daily (videos.length - idx) := by
      rw [collectDay_eq]
      simp [List.length_take, List.length_drop]
    have hfst : (collectDay videos videos.length daily idx).1.length
        = min daily (videos.length - idx) := by
      rw [collectDay_eq]
      simp [List.length_take, List.length_drop]
    simp only [List.map_cons, List.sum_cons, mkDayPlan]
    rw [ih _ (day + 1) (by rw [hres]; omega), hres, hfst]
    have hsm : (r + 1) * daily = r * daily + daily := Nat.succ_mul r daily
    omega

/-- C3.  `generate_daily_schedule` (utils.py:151-190): the inferred daily
count is 1, 2 or 3; the schedule has exactly `max 1 (n / dailyVideoCount)`
days keyed `"day_1"`, `"day_2"`, … contiguously; day `k` (1-based) holds the
projections of the videos at indices `[(k-1)·daily, k·daily)` in order; and
the day counts sum to `min n (days · daily)`, so remainder videos are not
scheduled. -/
theorem schedule_days_and_buckets (videos : List Video) (commitment : String) :
    (inferDailyVideos commitment = 1 ∨ inferDailyVideos commitment = 2 ∨
      inferDailyVideos commitment = 3) ∧
    (generate_daily_schedule videos commitment).length
      = max 1 (videos.length / inferDailyVideos commitment) ∧
    (∀ k, k < (generate_daily_schedule videos commitment).length →
      (generate_daily_schedule videos commitment).get? k
        = some ("day_" ++ toString (k + 1),
            mkDayPlan (((videos.drop (k * inferDailyVideos commitment)).take
              (inferDailyVideos commitment)).map projVideo))) ∧
    ((generate_daily_schedule videos commitment).map
        (fun e => e.2.videos.length)).sum
      = min videos.length
          ((generate_daily_schedule videos commitment).length
            * inferDailyVideos commitment) := by
  have hgen : generate_daily_schedule videos commitment
      = scheduleDays videos videos.length (inferDailyVideos commitment) 0 1
          (max 1 (videos.length / inferDailyVideos commitment)) := rfl
  refine ⟨?_, ?_, ?_, ?_⟩
  · unfold inferDailyVideos
    split_ifs <;> simp
  · rw [hgen, scheduleDays_length]
  · intro k hk
    rw [hgen] at hk ⊢
    rw [scheduleDays_length] at hk
    rw [scheduleDays_get? videos _ _ 0 1 k hk, Nat.zero_add, Nat.add_comm 1 k]
  · rw [hgen, scheduleDays_sum videos _ _ 0 1 (by omega), scheduleDays_length]
    simp only [Nat.sub_zero]
    exact Nat.min_comm _ _

/-- Witness for C3: 7 videos with commitment "I have 2 hours a day" give a
2-video second day. -/
theorem schedule_days_and_buckets_witness :
    1 < (generate_daily_schedule demoSeven "I have 2 hours a day").length ∧
    (generate_daily_schedule demoSeven "I have 2 hours a day").get? 1
      = some ("day_" ++ toString (1 + 1),
          mkDayPlan (((demoSeven.drop (1 * inferDailyVideos "I have 2 hours a day")).take
            (inferDailyVideos "I have 2 hours a day")).map projVideo)) :=
  ⟨by decide,
    (schedule_days_and_buckets demoSeven "I have 2 hours a day").2.2.1 1 (by decide)⟩

/-- Counterexample for C4 as stated.  The commitment string "One hour"
contains "hour" and (case-insensitively) the word "one", so the
case-insensitive search of the claim should give 1 video per day; the code searches the
original string case-sensitively (utils.py:157, `"one" in commitment`) and
falls through to the default of 2. -/
theorem inferDailyVideos_not_case_insensitive :
    strIn "hour" (pyLower "One hour") = true ∧
    strIn "one" (pyLower "One hour") = true ∧
    strIn "one" "One hour" = false ∧
    inferDailyVideos "One hour" = 2 := by decide

/-- C4 (amended).  The daily video count is decided as follows: if the
lowercased commitment does not contain "hour" the count is 2; otherwise the
digit/word pairs "1"/"one", "2"/"two", "3"/"three" are searched
case-sensitively in the original (un-lowercased) commitment string,
first match winning in that order, defaulting to 2 when none matches. -/
theorem inferDailyVideos_cases (c : String) :
    (strIn "hour" (pyLower c) = false → inferDailyVideos c = 2) ∧
    (strIn "hour" (pyLower c) = true →
      (strIn "1" c || strIn "one" c) = true → inferDailyVideos c = 1) ∧
    (strIn "hour" (pyLower c) = true → (strIn "1" c || strIn "one" c) = false →
      (strIn "2" c || strIn "two" c) = true → inferDailyVideos c = 2) ∧
    (strIn "hour" (pyLower c) = true → (strIn "1" c || strIn "one" c) = false →
      (strIn "2" c || strIn "two" c) = false →
      (strIn "3" c || strIn "three" c) = true → inferDailyVideos c = 3) ∧
    (strIn "hour" (pyLower c) = true → (strIn "1" c || strIn "one" c) = false →
      (strIn "2" c || strIn "two" c) = false →
      (strIn "3" c || strIn "three" c) = false → inferDailyVideos c = 2) := by
  refine ⟨?_, ?_, ?_, ?_, ?_⟩ <;>
    intros <;> simp_all [inferDailyVideos]

/-- Witness for C4 (amended) on "2 hours": the "hour" branch is taken,
"1"/"one" do not occur, "2" occurs, so the count is 2. -/
theorem inferDailyVideos_cases_witness :
    strIn "hour" (pyLower "2 hours") = true ∧
    (strIn "1" "2 hours" || strIn "one" "2 hours") = false ∧
    (strIn "2" "2 hours" || strIn "two" "2 hours") = true ∧
    inferDailyVideos "2 hours" = 2 :=
  ⟨by decide, by decide, by decide,
    (inferDailyVideos_cases "2 hours").2.2.1 (by decide) (by decide) (by decide)⟩

theorem splitSpace_chars (t : List Char) :
    ∀ w ∈ splitSpace t, ∀ c ∈ w, c ∈ t := by
  induction t with
  | nil =>
    intro w hw c hc
    simp only [splitSpace, List.mem_singleton] at hw
    subst hw
    simp at hc
  | cons a as ih =>
    intro w hw c hc
    unfold splitSpace at hw
    by_cases ha : a = ' '
    · rw [if_pos ha] at hw
      rcases List.mem_cons.mp hw with h | h
      · subst h; simp at hc
      · exact List.mem_cons_of_mem a (ih w h c hc)
    · rw [if_neg ha] at hw
      cases hsp : splitSpace as with
      | nil =>
        rw [hsp] at hw
        simp only [List.mem_singleton] at hw
        subst hw
        rcases List.mem_cons.mp hc with h | h
        · rw [h]; exact List.mem_cons_self a as
        · simp at h
      | cons w0 ws0 =>
        rw [hsp] at hw
        rcases List.mem_cons.mp hw with h | h
        · subst h
          rcases List.mem_cons.mp hc with h | h
          · rw [h]; exact List.mem_cons_self a as
          · exact List.mem_cons_of_mem a
              (ih w0 (by rw [hsp]; exact List.mem_cons_self w0 ws0) c h)
        · exact List.mem_cons_of_mem a
            (ih w (by rw [hsp]; exact List.mem_cons_of_mem w0 h) c hc)

theorem splitSpace_of_no_space (l : List Char) (h : ' ' ∉ l) : splitSpace l = [l] := by
  induction l with
  | nil => rfl
  | cons a as ih =>
    unfold splitSpace
    rw [if_neg (fun he => h (by rw [← he]; exact List.mem_cons_self a as))]
    rw [ih fun hm => h (List.mem_cons_of_mem a hm)]

theorem joinWords_nil : joinWords [] = [] := rfl

theorem joinWords_single (w : List Char) : joinWords [w] = w := by
  simp [joinWords, List.intercalate]

theorem splitFitLoop_extends (measure : List Char → Nat) (available : Nat) :
    ∀ (cs : List Char) (chunks : List (List Char)) (cur : List Char),
      ∃ t, splitFitLoop measure available cs chunks cur = chunks ++ t := by
  intro cs
  induction cs with
  | nil =>
    intro chunks cur
    by_cases h : cur.isEmpty
    · exact ⟨[], by simp [splitFitLoop, h]⟩
    · exact ⟨[cur], by simp [splitFitLoop, h]⟩
  | cons c cs ih =>
    intro chunks cur
    unfold splitFitLoop
    by_cases h : measure (cur ++ [c]) < available
    · rw [if_pos h]; exact ih chunks (cur ++ [c])
    · rw [if_neg h]
      obtain ⟨t, ht⟩ := ih (chunks ++ [cur]) [c]
      exact ⟨cur :: t, by simpa using ht⟩

theorem splitFitLoop_width (measure : List Char → Nat) (available : Nat) :
    ∀ (cs : List Char) (chunks : List (List Char)) (cur : List Char),
      (∀ c ∈ cs, measure [c] < available) →
      (∀ l ∈ chunks, measure l ≤ available) →
      (cur = [] ∨ measure cur < available) →
      measure [] ≤ available →
      ∀ l ∈ splitFitLoop measure available cs chunks cur, measure l ≤ available := by
  intro cs
  induction cs with
  | nil =>
    intro chunks cur hcs hchunks hcur hempty l hl
    unfold splitFitLoop at hl
    by_cases h : cur.isEmpty
    · rw [if_pos h] at hl
      exact hchunks l hl
    · rw [if_neg h] at hl
      rcases List.mem_append.mp hl with hm | hm
      · exact hchunks l hm
      · have hlc : l = cur := by simpa using hm
        subst hlc
        rcases hcur with hc | hc
        · subst hc; simp at h
        · exact le_of_lt hc
  | cons c cs ih =>
    intro chunks cur hcs hchunks hcur hempty l hl
    unfold splitFitLoop at hl
    by_cases h : measure (cur ++ [c]) < available
    · rw [if_pos h] at hl
      exact ih chunks (cur ++ [c]) (fun d hd => hcs d (List.mem_cons_of_mem c hd))
        hchunks (Or.inr h) hempty l hl
    · rw [if_neg h] at hl
      refine ih (chunks ++ [cur]) [c] (fun d hd => hcs d (List.mem_cons_of_mem c hd))
        ?_ (Or.inr (hcs c (List.mem_cons_self c cs))) hempty l hl
      intro m hm
      rcases List.mem_append.mp hm with hm | hm
      · exact hchunks m hm
      · have hmc : m = cur := by simpa using hm
        subst hmc
        rcases hcur with hc | hc
        · rw [hc]; exact hempty
        · exact le_of_lt hc

theorem renderLoop_width (measure : List Char → Nat) (available : Nat) :
    ∀ (ws : List (List Char)) (lines : List (List Char)) (cur : List (List Char)),
      (∀ w ∈ ws, ∀ c ∈ w, measure [c] < available) →
      (∀ l ∈ lines, measure l ≤ available) →
      (cur = [] ∨ measure (joinWords cur) ≤ available) →
      measure [] ≤ available →
      ∀ l ∈ renderLoop measure available ws lines cur, measure l ≤ available := by
  intro ws
  induction ws with
  | nil =>
    intro lines cur hws hlines hcur hempty l hl
    unfold renderLoop at hl
    by_cases h : cur.isEmpty
    · rw [if_pos h] at hl
      exact hlines l hl
    · rw [if_neg h] at hl
      rcases List.mem_append.mp hl with hm | hm
      · exact hlines l hm
      · have hlc : l = joinWords cur := by simpa using hm
        subst hlc
        rcases hcur with hc | hc
        · subst hc; simp at h
        · exact hc
  | cons w ws ih =>
    intro lines cur hws hlines hcur hempty l hl
    unfold renderLoop at hl
    by_cases hlong : available < measure w
    · rw [if_pos hlong] at hl
      refine ih _ [] (fun u hu => hws u (List.mem_cons_of_mem w hu)) ?_
        (Or.inl rfl) hempty l hl
      intro m hm
      rcases List.mem_append.mp hm with hm | hm
      · by_cases h : cur.isEmpty
        · rw [if_pos h] at hm
          exact hlines m hm
        · rw [if_neg h] at hm
          rcases List.mem_append.mp hm with hm2 | hm2
          · exact hlines m hm2
          · have hmc : m = joinWords cur := by simpa using hm2
            subst hmc
            rcases hcur with hc | hc
            · subst hc; simp at h
            · exact hc
      · exact splitFitLoop_width measure available w [] []
          (fun c hc => hws w (List.mem_cons_self w ws) c hc)
          (by intro m hm; simp at hm) (Or.inl rfl) hempty m hm
    · rw [if_neg hlong] at hl
      by_cases hjoin : measure (joinWords (cur ++ [w])) < available
      · rw [if_pos hjoin] at hl
        exact ih lines (cur ++ [w]) (fun u hu => hws u (List.mem_cons_of_mem w hu))
          hlines (Or.inr (le_of_lt hjoin)) hempty l hl
      · rw [if_neg hjoin] at hl
        refine ih (lines ++ [joinWords cur]) [w]
          (fun u hu => hws u (List.mem_cons_of_mem w hu)) ?_
          (Or.inr (by rw [joinWords_single]; omega)) hempty l hl
        intro m hm
        rcases List.mem_append.mp hm with hm | hm
        · exact hlines m hm
        · have hmc : m = joinWords cur := by simpa using hm
          subst hmc
          rcases hcur with hc | hc
          · rw [hc, joinWords_nil]; exact hempty
          · exact hc

/-- Counterexample for C6 as stated.  With the character-count measure and
maxWidth 2, the input "ab" has every single character strictly narrower
than the maximum, yet the token "ab" measures exactly 2: it is neither
over-width (the split test at utils.py:385 is strict `>`) nor appendable
(the test at utils.py:397 is strict `<`), so it is emitted as a line whose
measured width equals maxWidth, contradicting the claimed strict bound. -/
theorem wrapped_line_at_exact_maxWidth :
    List.length ['a'] < 2 ∧ List.length ['b'] < 2 ∧
    ['a', 'b'] ∈ renderWrappedLines List.length 2 ['a', 'b'] ∧
    ¬ List.length ['a', 'b'] < 2 := by decide

/-- C6 (amended).  For any measure with `measure "" ≤ maxWidth` and any
input whose single characters all measure strictly below `maxWidth`, every
line emitted by `_render_wrapped_text` (utils.py:377-406, together with
`_split_token_to_fit`, utils.py:361-375) measures at most `maxWidth`;
a line holding a single token may measure exactly `maxWidth`. -/
theorem render_wrapped_lines_width_le (measure : List Char → Nat) (available : Nat)
    (text : List Char)
    (hchar : ∀ c ∈ text, measure [c] < available)
    (hempty : measure [] ≤ available) :
    ∀ line ∈ renderWrappedLines measure available text,
      measure line ≤ available := by
  refine renderLoop_width measure available (splitSpace text) [] [] ?_ ?_ (Or.inl rfl) hempty
  · intro w hw c hc
    exact hchar c (splitSpace_chars text w hw c hc)
  · intro l hl
    simp at hl

/-- Witness for C6 (amended) on the input "ab cd" with the character-count
measure and maxWidth 3. -/
theorem render_wrapped_lines_width_le_witness :
    ['a', 'b'] ∈ renderWrappedLines List.length 3 ['a', 'b', ' ', 'c', 'd'] ∧
    List.length ['a', 'b'] ≤ 3 :=
  ⟨by decide,
    render_wrapped_lines_width_le List.length 3 ['a', 'b', ' ', 'c', 'd']
      (by decide) (by decide) ['a', 'b'] (by decide)⟩

theorem concatAll_append {α : Type} (a b : List (List α)) :
    concatAll (a ++ b) = concatAll a ++ concatAll b := by
  induction a with
  | nil => rfl
  | cons l ls ih => simp [concatAll, ih]

theorem concatAll_map_singleton {α : Type} (l : List α) :
    concatAll (l.map fun x => [x]) = l := by
  induction l with
  | nil => rfl
  | cons x xs ih => simp [concatAll, ih]

theorem map_joinWords_singletons (chunks : List (List Char)) :
    (chunks.map fun c => [c]).map joinWords = chunks := by
  induction chunks with
  | nil => rfl
  | cons c cs ih => simp [joinWords_single, ih]

theorem splitFitLoop_concat (measure : List Char → Nat) (available : Nat) :
    ∀ (cs : List Char) (chunks : List (List Char)) (cur : List Char),
      concatAll (splitFitLoop measure available cs chunks cur)
        = concatAll chunks ++ (cur ++ cs) := by
  intro cs
  induction cs with
  | nil =>
    intro chunks cur
    unfold splitFitLoop
    by_cases h : cur.isEmpty
    · rw [if_pos h]
      have hc : cur = [] := by simpa using h
      simp [hc]
    · rw [if_neg h]
      simp [concatAll_append, concatAll]
  | cons c cs ih =>
    intro chunks cur
    unfold splitFitLoop
    by_cases h : measure (cur ++ [c]) < available
    · rw [if_pos h, ih chunks (cur ++ [c])]
      simp
    · rw [if_neg h, ih (chunks ++ [cur]) [c]]
      simp [concatAll_append, concatAll]

theorem splitTokenToFit_concat (measure : List Char → Nat) (available : Nat)
    (token : List Char) :
    concatAll (splitTokenToFit measure available token) = token := by
  unfold splitTokenToFit
  rw [splitFitLoop_concat]
  rfl

theorem expandTokens_nil (measure : List Char → Nat) (available : Nat) :
    expandTokens measure available [] = [] := rfl

theorem expandTokens_cons (measure : List Char → Nat) (available : Nat)
    (w : List Char) (ws : List (List Char)) :
    expandTokens measure available (w :: ws)
      = (if available < measure w then splitTokenToFit measure available w else [w])
        ++ expandTokens measure available ws := rfl

theorem renderLoop_grouping (measure : List Char → Nat) (available : Nat) :
    ∀ (ws : List (List Char)) (G : List (List (List Char))) (cur : List (List Char)),
      ∃ G', renderLoop measure available ws (G.map joinWords) cur = G'.map joinWords ∧
        concatAll G' = concatAll G ++ cur ++ expandTokens measure available ws := by
  intro ws
  induction ws with
  | nil =>
    intro G cur
    unfold renderLoop
    by_cases h : cur.isEmpty
    · rw [if_pos h]
      have hc : cur = [] := by simpa using h
      exact ⟨G, rfl, by simp [hc, expandTokens_nil]⟩
    · rw [if_neg h]
      refine ⟨G ++ [cur], by simp, ?_⟩
      simp [concatAll_append, concatAll, expandTokens_nil]
  | cons w ws ih =>
    intro G cur
    unfold renderLoop
    by_cases hlong : available < measure w
    · rw [if_pos hlong]
      have hlines : (if (G.map joinWords).isEmpty then [] else G.map joinWords) = G.map joinWords := by
        by_cases hG : (G.map joinWords).isEmpty
        · rw [if_pos hG]
          have : G.map joinWords = [] := by simpa using hG
          rw [this]
        · rw [if_neg hG]
      have hstep :
          ((if cur.isEmpty then G.map joinWords else G.map joinWords ++ [joinWords cur])
              ++ splitTokenToFit measure available w)
            = ((if cur.isEmpty then G else G ++ [cur])
                ++ (splitTokenToFit measure available w).map fun c => [c]).map joinWords := by
        by_cases h : cur.isEmpty
        · rw [if_pos h, if_pos h, List.map_append, map_joinWords_singletons]
        · rw [if_neg h, if_neg h, List.map_append, List.map_append,
            map_joinWords_singletons]
          simp
      rw [hstep]
      obtain ⟨G', h1, h2⟩ := ih ((if cur.isEmpty then G else G ++ [cur])
        ++ (splitTokenToFit measure available w).map (fun c => [c])) []
      refine ⟨G', h1, ?_⟩
      rw [h2, concatAll_append, concatAll_map_singleton,
        expandTokens_cons, if_pos hlong]
      by_cases h : cur.isEmpty
      · have hc : cur = [] := by simpa using h
        simp [hc]
      · rw [if_neg h]
        simp [concatAll_append, concatAll]
    · rw [if_neg hlong]
      by_cases hjoin : measure (joinWords (cur ++ [w])) < available
      · rw [if_pos hjoin]
        obtain ⟨G', h1, h2⟩ := ih G (cur ++ [w])
        refine ⟨G', h1, ?_⟩
        rw [h2, expandTokens_cons, if_neg hlong]
        simp
      · rw [if_neg hjoin]
        have hstep : G.map joinWords ++ [joinWords cur] = (G ++ [cur]).map joinWords := by
          simp
        rw [hstep]
        obtain ⟨G', h1, h2⟩ := ih (G ++ [cur]) [w]
        refine ⟨G', h1, ?_⟩
        rw [h2, concatAll_append, expandTokens_cons, if_neg hlong]
        simp [concatAll]

/-- Counterexample for C7 as stated.  On the input "ab" with the
character-count measure and maxWidth 2, no token is over-width, yet the
wrapper emits an extra empty line (the flush of the still-empty
accumulated line at utils.py:400), so re-splitting the emitted lines into
space-separated tokens yields an extra empty token that is not in the
token sequence of the input. -/
theorem wrapped_lines_tokens_not_literal :
    renderWrappedLines List.length 2 ['a', 'b'] = [[], ['a', 'b']] ∧
    concatAll ((renderWrappedLines List.length 2 ['a', 'b']).map splitSpace)
      = [[], ['a', 'b']] ∧
    expandTokens List.length 2 (splitSpace ['a', 'b']) = [['a', 'b']] ∧
    concatAll ((renderWrappedLines List.length 2 ['a', 'b']).map splitSpace)
      ≠ expandTokens List.length 2 (splitSpace ['a', 'b']) := by decide

/-- C7 (amended).  The emitted lines of `_render_wrapped_text`
(utils.py:377-406) are exactly the space-joins of a partition of the
expanded token sequence (each over-width token replaced by its chunks from
`_split_token_to_fit`) into consecutive, possibly empty, groups: no token
is lost, duplicated or reordered, but an emitted empty line corresponds to
an empty group.  The chunks of a split token concatenate to exactly the
characters of the token in order. -/
theorem render_wrapped_lines_token_grouping (measure : List Char → Nat)
    (available : Nat) (text : List Char) :
    (∃ G : List (List (List Char)),
      renderWrappedLines measure available text = G.map joinWords ∧
      concatAll G = expandTokens measure available (splitSpace text)) ∧
    (∀ token : List Char,
      concatAll (splitTokenToFit measure available token) = token) := by
  constructor
  · obtain ⟨G', h1, h2⟩ := renderLoop_grouping measure available (splitSpace text) [] []
    refine ⟨G', ?_, ?_⟩
    · simpa [renderWrappedLines] using h1
    · rw [h2]
      rfl
  · intro token
    exact splitTokenToFit_concat measure available token

/-- C10.  In `_split_token_to_fit` (utils.py:361-375), when the first
character of the token already fails the width test
(`measure("" + char) < available` is false), the still-empty
`current_chunk` is closed before the character starts a new chunk, so the
returned chunk list begins with the empty string; consequently, for a
single over-width space-free token, `_render_wrapped_text`
(utils.py:377-406) emits exactly the chunk list, and its first emitted
line is the empty line. -/
theorem splitTokenToFit_leading_empty_chunk (measure : List Char → Nat)
    (available : Nat) (c : Char) (rest : List Char)
    (hc : ¬ measure [c] < available)
    (hnospace : ' ' ∉ c :: rest)
    (hlong : available < measure (c :: rest)) :
    (splitTokenToFit measure available (c :: rest)).head? = some [] ∧
    renderWrappedLines measure available (c :: rest)
      = splitTokenToFit measure available (c :: rest) ∧
    (renderWrappedLines measure available (c :: rest)).head? = some [] := by
  have h1 : (splitTokenToFit measure available (c :: rest)).head? = some [] := by
    unfold splitTokenToFit splitFitLoop
    simp only [List.nil_append]
    rw [if_neg hc]
    obtain ⟨t, ht⟩ := splitFitLoop_extends measure available rest [[]] [c]
    rw [ht]
    rfl
  have h2 : renderWrappedLines measure available (c :: rest)
      = splitTokenToFit measure available (c :: rest) := by
    unfold renderWrappedLines
    rw [splitSpace_of_no_space _ hnospace]
    unfold renderLoop
    rw [if_pos hlong]
    simp [renderLoop]
  exact ⟨h1, h2, by rw [h2]; exact h1⟩

/-- Witness for C10: with the character-count measure and available width 1,
the token "ab" splits into an empty leading chunk followed by "a" and "b",
and the first emitted line of the renderer is empty. -/
theorem splitTokenToFit_leading_empty_chunk_witness :
    (¬ List.length ['a'] < 1) ∧ (' ' ∉ ['a', 'b']) ∧ (1 < List.length ['a', 'b']) ∧
    (splitTokenToFit List.length 1 ['a', 'b']).head? = some [] :=
  ⟨by decide, by decide, by decide,
    (splitTokenToFit_leading_empty_chunk List.length 1 'a' ['b']
      (by decide) (by decide) (by decide)).1⟩

/-- Counterexample for C8 as stated.  With all four required SMTP settings
present but SMTP_PORT set to the non-numeric "abc",
`int(os.getenv("SMTP_PORT", "587"))` (utils.py:455) raises ValueError
before the missing-key check and outside the try/except, so a
misconfigured mail transport propagates an exception instead of the
claimed failure value False. -/
theorem send_email_raises_on_malformed_port :
    get_missing_smtp_env_keys envBadPort = [] ∧
    send_email_with_attachment envBadPort (Except.error "connection refused")
      = Except.error "ValueError: invalid SMTP_PORT" := ⟨by decide, rfl⟩

/-- C8 (amended).  A failing or misconfigured search provider never
propagates: `search_youtube_videos` returns `[]` both when the provider
raises and when it returns a falsy or malformed response.  Provided the
numeric settings SMTP_PORT, SMTP_TIMEOUT and SMTP_DEBUG parse as integers
(they do when unset, by their defaults), `send_email_with_attachment`
returns False rather than raising when the transport fails, whether or
not required settings are missing; with a malformed numeric setting the
function raises instead. -/
theorem collaborator_failures_degrade_gracefully (e : String)
    (env : String → Option String)
    (hport : (pyInt (pyGetenvD env "SMTP_PORT" "587")).isSome = true)
    (htimeout : (pyInt (pyGetenvD env "SMTP_TIMEOUT" "30")).isSome = true)
    (hdebug : (pyInt (pyGetenvD env "SMTP_DEBUG" "0")).isSome = true) :
    search_youtube_videos (Except.error e) = [] ∧
    search_youtube_videos (Except.ok none) = [] ∧
    send_email_with_attachment env (Except.error e) = Except.ok false := by
  refine ⟨rfl, rfl, ?_⟩
  unfold send_email_with_attachment
  obtain ⟨p1, h1⟩ := Option.isSome_iff_exists.mp hport
  obtain ⟨p2, h2⟩ := Option.isSome_iff_exists.mp htimeout
  obtain ⟨p3, h3⟩ := Option.isSome_iff_exists.mp hdebug
  rw [h1, h2, h3]
  by_cases hm : (get_missing_smtp_env_keys env).isEmpty
  · rw [if_pos hm]
  · rw [if_neg hm]

/-- Witness for C8 (amended): a transport failure with the default numeric
settings yields False, not an exception. -/
theorem collaborator_failures_degrade_gracefully_witness :
    (pyInt (pyGetenvD envMissingFrom "SMTP_PORT" "587")).isSome = true ∧
    (search_youtube_videos (Except.error "boom") = [] ∧
      search_youtube_videos (Except.ok none) = [] ∧
      send_email_with_attachment envMissingFrom (Except.error "boom")
        = Except.ok false) :=
  ⟨by decide,
    collaborator_failures_degrade_gracefully "boom" envMissingFrom
      (by decide) (by decide) (by decide)⟩

/-- Counterexample for C9 as stated.  In the environment `envEmptyHost`,
EMAIL_FROM is the only absent required key, yet
`get_missing_smtp_env_keys` also reports SMTP_HOST (present but empty,
hence falsy for `not os.getenv(key)` at utils.py:440); and because
SMTP_PORT is set to a non-numeric value, `send_email_with_attachment`
raises at utils.py:455 instead of returning the claimed failure value. -/
theorem missing_keys_counterexample :
    envEmptyHost "EMAIL_FROM" = none ∧
    envEmptyHost "SMTP_HOST" = some "" ∧
    get_missing_smtp_env_keys envEmptyHost = ["EMAIL_FROM", "SMTP_HOST"] ∧
    send_email_with_attachment envEmptyHost (Except.ok ())
      = Except.error "ValueError: invalid SMTP_PORT" := ⟨rfl, rfl, by decide, rfl⟩

/-- C9 (amended).  `get_missing_smtp_env_keys` returns exactly the
required keys that are absent or empty, in the fixed declared order
(a sublist of the required-key list); and whenever that list is
non-empty — provided the numeric settings parse as integers —
`send_email_with_attachment` returns False for every transport outcome,
i.e. without attempting any SMTP transmission. -/
theorem missing_smtp_keys_short_circuit (env : String → Option String)
    (hport : (pyInt (pyGetenvD env "SMTP_PORT" "587")).isSome = true)
    (htimeout : (pyInt (pyGetenvD env "SMTP_TIMEOUT" "30")).isSome = true)
    (hdebug : (pyInt (pyGetenvD env "SMTP_DEBUG" "0")).isSome = true)
    (hmiss : get_missing_smtp_env_keys env ≠ []) :
    (get_missing_smtp_env_keys env).Sublist requiredSmtpKeys ∧
    (∀ k, k ∈ get_missing_smtp_env_keys env
      ↔ k ∈ requiredSmtpKeys ∧ pyTruthy (env k) = false) ∧
    (∀ t : Except String Unit,
      send_email_with_attachment env t = Except.ok false) := by
  refine ⟨List.filter_sublist _, ?_, ?_⟩
  · intro k
    rw [get_missing_smtp_env_keys, List.mem_filter]
    simp
  · intro t
    unfold send_email_with_attachment
    obtain ⟨p1, h1⟩ := Option.isSome_iff_exists.mp hport
    obtain ⟨p2, h2⟩ := Option.isSome_iff_exists.mp htimeout
    obtain ⟨p3, h3⟩ := Option.isSome_iff_exists.mp hdebug
    rw [h1, h2, h3, if_neg fun hI => hmiss (List.isEmpty_iff.mp hI)]

/-- Witness for C9 (amended): with only EMAIL_FROM missing, the missing
list is exactly ["EMAIL_FROM"] and a send attempt returns False even
though the transport would have succeeded. -/
theorem missing_smtp_keys_short_circuit_witness :
    get_missing_smtp_env_keys envMissingFrom = ["EMAIL_FROM"] ∧
    send_email_with_attachment envMissingFrom (Except.ok ()) = Except.ok false :=
  ⟨by decide,
    (missing_smtp_keys_short_circuit envMissingFrom
      (by decide) (by decide) (by decide) (by decide)).2.2 (Except.ok ())⟩

set_option maxRecDepth 10000 in
/-- C5 (code divergence).  When the generative-text collaborator is
configured and succeeds, `generate_learning_notes` returns `response.text`
immediately (utils.py:223), so the document body is the AI narrative alone
and the fixed-format curriculum section is never appended, even though
`playlist_data` is non-null; only the fallback path (utils.py:293-340)
appends the section.  The claim (and §4.4 of the specification) requires
the section to be appended regardless of the narrative source. -/
theorem notes_skip_curriculum_on_ai_success :
    generate_learning_notes "P" "beginner" "1 hour" (some demoPlaylist)
        (some "AI NOTES") = "AI NOTES" ∧
    (∃ pre, generate_learning_notes "P" "beginner" "1 hour" (some demoPlaylist) none
        = pre ++ playlistSection demoPlaylist) ∧
    ¬ ∃ pre, generate_learning_notes "P" "beginner" "1 hour" (some demoPlaylist)
        (some "AI NOTES") = pre ++ playlistSection demoPlaylist := by
  refine ⟨rfl, ⟨fallbackNotes "P" "beginner" "1 hour", rfl⟩, ?_⟩
  rintro ⟨pre, hpre⟩
  have h8 : (generate_learning_notes "P" "beginner" "1 hour" (some demoPlaylist)
      (some "AI NOTES")).length = 8 := by decide
  have hlen := congrArg String.length hpre
  rw [String.length_append, h8] at hlen
  have hsec : 100 < (playlistSection demoPlaylist).length := by decide
  omega
